import Mathlib

/-!
Shallow embedding of the `gibb` broadcast library (package `gibb`, file
`gibb.go`).

The Go implementation represents the broadcast history as a linked chain of
capacity-1 channels: each `message` holds a value `v` and the channel `c` of
the next cell.  The `Broadcaster` keeps the channel of the current pending
tail cell, `Write` sends `message{v, newCell}` into it and advances, and a
`Receiver` keeps the channel of the next unconsumed cell, receives the
message, immediately sends it back (so the cell stays filled for every other
receiver), and advances its own cursor to `msg.c`.

In the embedding a cell channel is identified by its allocation index, and
the whole shared state is a `Bcast`: the list of cell contents (a capacity-1
channel holds `none` or one message) together with the write cursor.  A
receiver is its read-cursor cell id (a `Nat`); the receiver mutexes serialize
calls, so each public operation is a function from state to state.  An
operation that would block forever returns `none`.

Cancellation (`readCancel`'s two `select` statements) is resolved by a
`CancelOracle` recording how the races with the cancellation channel went for
one call: `preFired` is the outcome of the initial non-blocking probe, and
`winsRace` tells whether the cancellation branch of the second, blocking
`select` was taken.  The never-firing fresh channel created by `always`
corresponds to the oracle `⟨false, false⟩`.
-/

namespace Gibb

/-- Go `message`: a value together with the id of the next cell's channel. -/
structure Message (V : Type) where
  v : V
  c : Nat
deriving Repr, DecidableEq

/-- The shared broadcast state: `cells` maps each allocated cell id to the
current contents of its capacity-1 channel, and `c` is the Broadcaster's
write cursor (Go `Broadcaster.c`), the id of the pending tail cell. -/
structure Bcast (V : Type) where
  cells : List (Option (Message V))
  c : Nat
deriving Repr, DecidableEq

variable {V W W2 : Type}

/-- Go `NewBroadcaster` / `New`: one freshly allocated, still pending cell. -/
def NewBroadcaster (V : Type) : Bcast V :=
  ⟨[none], 0⟩

/-- Go `Broadcaster.Write`: allocate a fresh cell (the next free id,
appended at the end), send `message{v, c}` into the pending tail — under the
broadcaster invariant the tail channel is empty, so the send does not
block — and advance the write cursor to the fresh cell. -/
def Write (b : Bcast V) (v : V) : Bcast V :=
  ⟨(b.cells.set b.c (some ⟨v, b.cells.length⟩)) ++ [none], b.cells.length⟩

/-- Go `Broadcaster.Listen`: the new Receiver's cursor is the current write
cursor. -/
def Listen (b : Bcast V) : Nat :=
  b.c

/-- Receiving from cell `k`'s channel: possible only when the channel holds a
message; taking it leaves the channel empty.  `none` means the receive
blocks. -/
def recvCell (b : Bcast V) (k : Nat) : Option (Message V × Bcast V) :=
  match b.cells[k]? with
  | some (some msg) => some (msg, ⟨b.cells.set k none, b.c⟩)
  | _ => none

/-- Sending `msg` into cell `k`'s channel. -/
def sendCell (b : Bcast V) (k : Nat) (msg : Message V) : Bcast V :=
  ⟨b.cells.set k (some msg), b.c⟩

/-- Go `Receiver.read`: `msg := <-r.c; r.c <- msg; return msg` — take the
message out of the cursor cell and immediately put it back. -/
def read (b : Bcast V) (k : Nat) : Option (Message V × Bcast V) :=
  match recvCell b k with
  | none => none
  | some (msg, b1) => some (msg, sendCell b1 k msg)

/-- Go `Receiver.swap`: advance the read cursor to the message's next cell. -/
def swap (_k : Nat) (m : Message V) : Nat :=
  m.c

/-- Resolution of one `readCancel` call's races against the cancellation
channel: `preFired` is what the initial non-blocking probe saw, `winsRace`
whether the blocking `select` took the cancellation branch. -/
structure CancelOracle where
  preFired : Bool
  winsRace : Bool
deriving Repr, DecidableEq

/-- The oracle of a cancellation channel that never fires (the fresh
`make(chan struct{})` of Go `always`). -/
def neverFires : CancelOracle :=
  ⟨false, false⟩

/-- Go `Receiver.readCancel`: probe the cancellation channel without
blocking; if it fired, report not-ok with the zero message (here `none`)
and leave everything untouched.  Otherwise block on both the cancellation
channel and the cursor cell; if cancellation wins, again not-ok; if the
cell's message arrives, put it straight back and report it.  The result is
`none` when the call blocks forever (cell never filled, signal never
fires). -/
def readCancel (b : Bcast V) (k : Nat) (o : CancelOracle) :
    Option (Option (Message V) × Bcast V) :=
  if o.preFired then some (none, b)
  else if o.winsRace then some (none, b)
  else
    match recvCell b k with
    | none => none
    | some (msg, b1) => some (some msg, sendCell b1 k msg)

/-- Go `Receiver.ReadCancel`: `readCancel`, then `swap` only on success.
`CancelledResult{Okay, Val}` is rendered as `Option V` (`Val` is the zero
value when `Okay` is false); the returned pair `Bcast V × Nat` is the state
after the call (shared cells, receiver cursor). -/
def ReadCancel (b : Bcast V) (k : Nat) (o : CancelOracle) :
    Option (Option V × Bcast V × Nat) :=
  match readCancel b k o with
  | none => none
  | some (none, b1) => some (none, b1, k)
  | some (some msg, b1) => some (some msg.v, b1, swap k msg)

/-- Go `Receiver.PeekCancel`: `readCancel` with no `swap`: the cursor stays
put on every outcome. -/
def PeekCancel (b : Bcast V) (k : Nat) (o : CancelOracle) :
    Option (Option V × Bcast V × Nat) :=
  match readCancel b k o with
  | none => none
  | some (none, b1) => some (none, b1, k)
  | some (some msg, b1) => some (some msg.v, b1, k)

/-- Go `always`: run a cancellable operation with a fresh never-firing
cancellation channel and keep its `Val`.  With `neverFires` the not-ok
outcome is unreachable. -/
def always (cf : CancelOracle → Option (Option V × Bcast V × Nat)) :
    Option (V × Bcast V × Nat) :=
  match cf neverFires with
  | some (some v, b1, k1) => some (v, b1, k1)
  | some (none, _, _) => none
  | none => none

/-- Go `Receiver.Read` (current version, line 219): `always(r.ReadCancel)`. -/
def Read (b : Bcast V) (k : Nat) : Option (V × Bcast V × Nat) :=
  always (ReadCancel b k)

/-- Go `Receiver.Peek`: `always(r.PeekCancel)`. -/
def Peek (b : Bcast V) (k : Nat) : Option (V × Bcast V × Nat) :=
  always (PeekCancel b k)

/-- Go `Receiver.Read`, the direct implementation (line 438):
`msg := r.read(); r.swap(msg); return msg.v`. -/
def ReadDirect (b : Bcast V) (k : Nat) : Option (V × Bcast V × Nat) :=
  match read b k with
  | none => none
  | some (msg, b1) => some (msg.v, b1, swap k msg)

/-- Go `Receiver.ReadVal`: `read` the cursor message, try `fill.Fill` into
the target pointer, `swap` only when the fill succeeded.  The external
narrowing `fill.Fill(v, x)` is the opaque parameter `tf : V → Option W`
(`some w` = assignable, and `w` is stored through the pointer; `none` =
not assignable, pointer left untouched), and `tgt` is the pointee of the
target pointer before the call.  Returns
`(ok, shared state, cursor, pointee)`. -/
def ReadVal (b : Bcast V) (k : Nat) (tf : V → Option W) (tgt : Option W) :
    Option (Bool × Bcast V × Nat × Option W) :=
  match read b k with
  | none => none
  | some (msg, b1) =>
    match tf msg.v with
    | some w => some (true, b1, swap k msg, some w)
    | none => some (false, b1, k, tgt)

/-- Go `Receiver.MustReadVal`: `for !r.ReadVal(v) { r.Read() }`.  `fuel`
bounds the number of loop iterations; `none` means the loop did not return
within `fuel` iterations (or a read blocked forever). -/
def MustReadVal (fuel : Nat) (b : Bcast V) (k : Nat) (tf : V → Option W)
    (tgt : Option W) : Option (Bcast V × Nat × Option W) :=
  match fuel with
  | 0 => none
  | fuel + 1 =>
    match ReadVal b k tf tgt with
    | none => none
    | some (true, b1, k1, t1) => some (b1, k1, t1)
    | some (false, b1, k1, t1) =>
      match Read b1 k1 with
      | none => none
      | some (_, b2, k2) => MustReadVal fuel b2 k2 tf t1

/-- One observable event on `ReadChan`'s output channel: a value delivered,
or the `defer close(vc)` running as the goroutine returns. -/
inductive ChanEvent (V : Type) where
  | emit (v : V)
  | close
deriving Repr, DecidableEq

/-- True exactly on the `close` event. -/
def isClose : ChanEvent V → Bool
  | .close => true
  | .emit _ => false

/-- Go `Receiver.ReadChan`'s goroutine: loop `ReadCancel(cc)`; on not-ok
return (running the deferred `close(vc)`, recorded as the final `close`
event); on success send the value (an `emit` event) and continue.  `os`
supplies one race oracle per iteration — entry `i` describes the state of
the `cc` channel during iteration `i` — and the run returns `none` when the
goroutine is still looping after `os` is exhausted or blocked forever. -/
def ReadChan (b : Bcast V) (k : Nat) (os : List CancelOracle) :
    Option (List (ChanEvent V) × Bcast V × Nat) :=
  match os with
  | [] => none
  | o :: os1 =>
    match ReadCancel b k o with
    | none => none
    | some (none, b1, k1) => some ([ChanEvent.close], b1, k1)
    | some (some v, b1, k1) =>
      match ReadChan b1 k1 os1 with
      | none => none
      | some (tr, b2, k2) => some (ChanEvent.emit v :: tr, b2, k2)

/-- Fold `Write` over a list of values, in order. -/
def writeAll (b : Bcast V) : List V → Bcast V
  | [] => b
  | v :: ws => writeAll (Write b v) ws

/-- The cell list reached after writing `vs` when the first cell of the run
has id `i`: each value occupies one filled cell whose message points at the
next id, followed by the single pending tail. -/
def chainCells : List V → Nat → List (Option (Message V))
  | [], _ => [none]
  | v :: vs, i => some ⟨v, i + 1⟩ :: chainCells vs (i + 1)

/-- The broadcast state reached from `NewBroadcaster` by writing `vs`. -/
def stateOf (vs : List V) : Bcast V :=
  ⟨chainCells vs 0, vs.length⟩

/-- Go `Receiver.Read` iterated `n` times, collecting the values. -/
def readN (b : Bcast V) (k : Nat) : Nat → Option (List V × Bcast V × Nat)
  | 0 => some ([], b, k)
  | n + 1 =>
    match Read b k with
    | none => none
    | some (v, b1, k1) =>
      match readN b1 k1 n with
      | none => none
      | some (l, b2, k2) => some (v :: l, b2, k2)

/-! ## Structure of reachable states

Every state reachable from `NewBroadcaster` by a sequence of `Write`s is
`stateOf vs` for the list `vs` of values written so far; the read-side
operations below are then computed on that closed form. -/

theorem chainCells_length (vs : List V) (i : Nat) :
    (chainCells vs i : List (Option (Message V))).length = vs.length + 1 := by
  induction vs generalizing i with
  | nil => rfl
  | cons v vs ih => simp [chainCells, ih]

theorem chainCells_getElem_lt (vs : List V) (i k : Nat) (v : V)
    (h : vs[k]? = some v) :
    (chainCells vs i)[k]? = some (some ⟨v, i + k + 1⟩) := by
  induction vs generalizing i k with
  | nil => simp at h
  | cons u vs ih =>
    cases k with
    | zero =>
      simp at h
      simp [chainCells, h]
    | succ n =>
      simp at h
      have := ih (i + 1) n h
      simp [chainCells, this]
      omega

theorem chainCells_getElem_tail (vs : List V) (i : Nat) :
    (chainCells vs i : List (Option (Message V)))[vs.length]? = some none := by
  induction vs generalizing i with
  | nil => rfl
  | cons v vs ih => simpa [chainCells] using ih (i + 1)

theorem chainCells_getElem_gt (vs : List V) (i k : Nat) (h : vs.length < k) :
    (chainCells vs i : List (Option (Message V)))[k]? = none := by
  induction vs generalizing i k with
  | nil =>
    cases k with
    | zero => omega
    | succ n => rfl
  | cons v vs ih =>
    cases k with
    | zero => simp at h
    | succ n =>
      have hn : vs.length < n := by simp at h; omega
      have := ih (i + 1) n hn
      simpa [chainCells] using this

theorem set_self_of_getElem {α : Type} (l : List α) (k : Nat) (a : α)
    (h : l[k]? = some a) : l.set k a = l := by
  induction l generalizing k with
  | nil => simp at h
  | cons x xs ih =>
    cases k with
    | zero =>
      simp at h
      simp [h]
    | succ n =>
      simp at h
      simp [List.set, ih n h]

theorem chainCells_snoc (vs : List V) (v : V) (i : Nat) :
    chainCells (vs ++ [v]) i
      = (chainCells vs i).set vs.length (some ⟨v, i + vs.length + 1⟩)
        ++ [none] := by
  induction vs generalizing i with
  | nil => simp [chainCells]
  | cons u vs ih =>
    have h1 := ih (i + 1)
    have harith : i + 1 + vs.length + 1 = i + (vs.length + 1) + 1 := by omega
    rw [harith] at h1
    show some ⟨u, i + 1⟩ :: chainCells (vs ++ [v]) (i + 1)
        = some ⟨u, i + 1⟩ :: ((chainCells vs (i + 1)).set vs.length
            (some ⟨v, i + (vs.length + 1) + 1⟩) ++ [none])
    rw [h1]

theorem write_stateOf (vs : List V) (v : V) :
    Write (stateOf vs) v = stateOf (vs ++ [v]) := by
  simp only [Write, stateOf, chainCells_length, chainCells_snoc, Nat.zero_add,
    List.length_append, List.length_cons, List.length_nil]

theorem writeAll_stateOf (vs ws : List V) :
    writeAll (stateOf vs) ws = stateOf (vs ++ ws) := by
  induction ws generalizing vs with
  | nil => simp [writeAll]
  | cons w ws ih =>
    rw [writeAll, write_stateOf, ih]
    simp

theorem new_eq_stateOf : NewBroadcaster V = stateOf ([] : List V) := rfl

theorem writeAll_new (vs : List V) :
    writeAll (NewBroadcaster V) vs = stateOf vs := by
  rw [new_eq_stateOf, writeAll_stateOf]
  simp

theorem Listen_stateOf (vs : List V) : Listen (stateOf vs) = vs.length := rfl

/-! ## Computation of the read primitives on reachable states -/

theorem read_stateOf (vs : List V) (k : Nat) (v : V) (h : vs[k]? = some v) :
    read (stateOf vs) k = some (⟨v, k + 1⟩, stateOf vs) := by
  have hc : (chainCells vs 0)[k]? = some (some ⟨v, 0 + k + 1⟩) :=
    chainCells_getElem_lt vs 0 k v h
  have hr : (chainCells vs 0).set k (some ⟨v, k + 1⟩) = chainCells vs 0 := by
    apply set_self_of_getElem
    simpa using hc
  simp only [read, recvCell, stateOf] at *
  rw [hc]
  simp only [sendCell, List.set_set]
  rw [show (0 : Nat) + k + 1 = k + 1 by omega] at *
  rw [hr]

theorem read_stateOf_blocked (vs : List V) (k : Nat) (h : vs.length ≤ k) :
    read (stateOf vs) k = none := by
  rcases Nat.lt_or_ge vs.length k with hlt | hge
  · have hc := chainCells_getElem_gt vs 0 k hlt
    simp [read, recvCell, stateOf, hc]
  · have hk : k = vs.length := by omega
    subst hk
    have hc := chainCells_getElem_tail vs 0
    simp [read, recvCell, stateOf, hc]

theorem readCancel_never (b : Bcast V) (k : Nat) :
    readCancel b k neverFires
      = match read b k with
        | none => none
        | some (msg, b1) => some (some msg, b1) := by
  simp only [readCancel, neverFires, read]
  cases h : recvCell b k with
  | none => rfl
  | some p => rfl

theorem Read_eq_ReadDirect (b : Bcast V) (k : Nat) :
    Read b k = ReadDirect b k := by
  simp only [Read, always, ReadCancel, readCancel_never, ReadDirect]
  cases h : read b k with
  | none => rfl
  | some p => rfl

theorem Read_stateOf (vs : List V) (k : Nat) (v : V) (h : vs[k]? = some v) :
    Read (stateOf vs) k = some (v, stateOf vs, k + 1) := by
  rw [Read_eq_ReadDirect, ReadDirect, read_stateOf vs k v h]
  rfl

theorem Read_stateOf_blocked (vs : List V) (k : Nat) (h : vs.length ≤ k) :
    Read (stateOf vs) k = none := by
  rw [Read_eq_ReadDirect, ReadDirect, read_stateOf_blocked vs k h]

theorem Peek_stateOf (vs : List V) (k : Nat) (v : V) (h : vs[k]? = some v) :
    Peek (stateOf vs) k = some (v, stateOf vs, k) := by
  simp only [Peek, always, PeekCancel, readCancel_never, read_stateOf vs k v h]

theorem readN_stateOf (vs : List V) (n k : Nat) (h : k + n ≤ vs.length) :
    readN (stateOf vs) k n = some ((vs.drop k).take n, stateOf vs, k + n) := by
  induction n generalizing k with
  | zero => simp [readN]
  | succ n ih =>
    have hk : k < vs.length := by omega
    have hv : vs[k]? = some vs[k] := List.getElem?_eq_getElem hk
    have hdrop : vs.drop k = vs[k] :: vs.drop (k + 1) :=
      List.drop_eq_getElem_cons hk
    have h1 : k + 1 + n = k + (n + 1) := by omega
    simp only [readN, Read_stateOf vs k vs[k] hv, ih (k + 1) (by omega), hdrop,
      List.take_succ_cons, h1]

/-! ## Inversion and restoration lemmas for the channel primitives -/

theorem recvCell_inv (b : Bcast V) (k : Nat) (msg : Message V) (b1 : Bcast V)
    (h : recvCell b k = some (msg, b1)) :
    b.cells[k]? = some (some msg) ∧ b1 = ⟨b.cells.set k none, b.c⟩ := by
  simp only [recvCell] at h
  cases hc : b.cells[k]? with
  | none => rw [hc] at h; simp at h
  | some oc =>
    cases oc with
    | none => rw [hc] at h; simp at h
    | some m =>
      rw [hc] at h
      simp only [Option.some.injEq, Prod.mk.injEq] at h
      obtain ⟨h1, h2⟩ := h
      subst h1
      exact ⟨rfl, h2.symm⟩

theorem read_restores (b : Bcast V) (k : Nat) (msg : Message V) (b1 : Bcast V)
    (h : read b k = some (msg, b1)) : b1 = b := by
  rw [read] at h
  cases hrc : recvCell b k with
  | none => rw [hrc] at h; simp at h
  | some p =>
    obtain ⟨m, b'⟩ := p
    rw [hrc] at h
    simp only [Option.some.injEq, Prod.mk.injEq] at h
    obtain ⟨hcell, hb'⟩ := recvCell_inv b k m b' hrc
    obtain ⟨cells, c⟩ := b
    subst hb'
    rw [← h.2]
    simp only [sendCell, List.set_set]
    simp only [Bcast.mk.injEq, and_true]
    exact set_self_of_getElem cells k (some m) hcell

theorem readCancel_cancelled (b : Bcast V) (k : Nat) (o : CancelOracle)
    (h : o.preFired = true ∨ o.winsRace = true) :
    readCancel b k o = some (none, b) := by
  rcases o with ⟨pf, wr⟩
  rcases h with h | h <;> simp at h <;> subst h <;> simp [readCancel]

theorem readCancel_some_inv (b : Bcast V) (k : Nat) (o : CancelOracle)
    (msg : Message V) (b1 : Bcast V)
    (h : readCancel b k o = some (some msg, b1)) :
    read b k = some (msg, b1) := by
  rcases o with ⟨pf, wr⟩
  cases pf with
  | true => simp [readCancel] at h
  | false =>
    cases wr with
    | true => simp [readCancel] at h
    | false =>
      simp only [readCancel, Bool.false_eq_true, if_false] at h
      rw [read]
      cases hrc : recvCell b k with
      | none => rw [hrc] at h; simp at h
      | some p =>
        obtain ⟨m, b'⟩ := p
        rw [hrc] at h
        simp only [Option.some.injEq, Prod.mk.injEq] at h
        obtain ⟨h1, h2⟩ := h
        subst h1
        subst h2
        rfl

theorem ReadCancel_cancelled (b : Bcast V) (k : Nat) (o : CancelOracle)
    (h : o.preFired = true ∨ o.winsRace = true) :
    ReadCancel b k o = some (none, b, k) := by
  simp only [ReadCancel, readCancel_cancelled b k o h]

theorem PeekCancel_cancelled (b : Bcast V) (k : Nat) (o : CancelOracle)
    (h : o.preFired = true ∨ o.winsRace = true) :
    PeekCancel b k o = some (none, b, k) := by
  simp only [PeekCancel, readCancel_cancelled b k o h]

theorem ReadCancel_never_stateOf (vs : List V) (k : Nat) (v : V)
    (h : vs[k]? = some v) :
    ReadCancel (stateOf vs) k neverFires = some (some v, stateOf vs, k + 1) := by
  simp only [ReadCancel, readCancel_never, read_stateOf vs k v h, swap]

theorem getLast_cons_of_getLast {α : Type} (e : α) (l : List α) (x : α)
    (h : l.getLast? = some x) : (e :: l).getLast? = some x := by
  cases l with
  | nil => simp at h
  | cons y ys => rw [List.getLast?_cons_cons]; exact h

/-! ## The claims -/

/-- C2: a Receiver created by `Listen()` after the values `vs` have been
written never sees any of them: its first `Read()` blocks (returns `none`)
as long as no further value is written, and once a further value `v` is
written (possibly followed by more values `ws`) the first `Read()` returns
exactly that (N+1)-th value `v`. -/
theorem listen_after_writes_blocks_then_reads_next_write (V : Type)
    (vs : List V) (v : V) (ws : List V) :
    Read (writeAll (NewBroadcaster V) vs)
        (Listen (writeAll (NewBroadcaster V) vs)) = none
    ∧ Read (writeAll (writeAll (NewBroadcaster V) vs) (v :: ws))
        (Listen (writeAll (NewBroadcaster V) vs))
      = some (v, writeAll (writeAll (NewBroadcaster V) vs) (v :: ws),
          vs.length + 1) := by
  rw [writeAll_new, writeAll_stateOf, Listen_stateOf]
  constructor
  · exact Read_stateOf_blocked vs vs.length (Nat.le_refl _)
  · have hv : (vs ++ v :: ws)[vs.length]? = some v := by
      rw [List.getElem?_append_right (Nat.le_refl _)]
      simp
    exact Read_stateOf (vs ++ v :: ws) vs.length v hv

/-- C3: when the cancellation signal has already fired before the wait
begins (the non-blocking probe at the top of `readCancel` sees it),
`ReadCancel` and `PeekCancel` return not-found and leave the whole state
untouched, for every receiver state — in particular even when a value is
already available at the read cursor. -/
theorem prefired_cancellation_wins_over_available_value (V : Type)
    (b : Bcast V) (k : Nat) (o : CancelOracle) (h : o.preFired = true) :
    ReadCancel b k o = some (none, b, k)
    ∧ PeekCancel b k o = some (none, b, k) :=
  ⟨ReadCancel_cancelled b k o (Or.inl h), PeekCancel_cancelled b k o (Or.inl h)⟩

/-- Witness for C3: on a broadcaster holding the already-written value `1`
(the cursor cell is filled), a pre-fired signal still wins. -/
theorem prefired_cancellation_wins_over_available_value_w :
    ReadCancel (writeAll (NewBroadcaster Nat) [1]) 0 ⟨true, false⟩
      = some (none, writeAll (NewBroadcaster Nat) [1], 0)
    ∧ PeekCancel (writeAll (NewBroadcaster Nat) [1]) 0 ⟨true, false⟩
      = some (none, writeAll (NewBroadcaster Nat) [1], 0) :=
  prefired_cancellation_wins_over_available_value Nat
    (writeAll (NewBroadcaster Nat) [1]) 0 ⟨true, false⟩ rfl

/-- C5: on a Receiver with an unconsumed written value `v` at its cursor,
`Peek()` returns `v` without advancing the cursor or changing the shared
state, and the immediately following `Read()` returns the identical value
`v`. -/
theorem peek_then_read_return_same_value (V : Type) (vs : List V) (k : Nat)
    (v : V) (hv : vs[k]? = some v) :
    Peek (writeAll (NewBroadcaster V) vs) k
      = some (v, writeAll (NewBroadcaster V) vs, k)
    ∧ Read (writeAll (NewBroadcaster V) vs) k
      = some (v, writeAll (NewBroadcaster V) vs, k + 1) := by
  rw [writeAll_new]
  exact ⟨Peek_stateOf vs k v hv, Read_stateOf vs k v hv⟩

/-- Witness for C5: peek then read of the single written value `5`. -/
theorem peek_then_read_return_same_value_w :
    Peek (writeAll (NewBroadcaster Nat) [5]) 0
      = some (5, writeAll (NewBroadcaster Nat) [5], 0)
    ∧ Read (writeAll (NewBroadcaster Nat) [5]) 0
      = some (5, writeAll (NewBroadcaster Nat) [5], 1) :=
  peek_then_read_return_same_value Nat [5] 0 5 (by decide)

/-- C6: `Read()` implemented as `always(r.ReadCancel)` — `ReadCancel` with a
fresh never-firing cancellation signal, advancing on success — agrees with
the direct take-and-swap implementation `msg := r.read(); r.swap(msg)` on
every receiver state: same value, same resulting shared state, same
resulting cursor (and both block exactly when the other does). -/
theorem read_agrees_with_direct_take_and_swap (V : Type) (b : Bcast V)
    (k : Nat) :
    Read b k = ReadDirect b k :=
  Read_eq_ReadDirect b k

/-- C10: the read primitives that take the message out of the cursor cell's
channel — `read`, and the success branch of `readCancel` — put the same
message back before returning: the resulting shared state is unchanged, so
the cell still holds its message and a re-read at the same cell still finds
it; no receiver-side read can make a value disappear for other
receivers. -/
theorem read_primitives_restore_cell_contents (V : Type) (b : Bcast V)
    (k : Nat) (o : CancelOracle) (msg msg2 : Message V) (b1 b2 : Bcast V)
    (h1 : read b k = some (msg, b1))
    (h2 : readCancel b k o = some (some msg2, b2)) :
    b1 = b ∧ b2 = b ∧ read b1 k = some (msg, b1) := by
  have e1 : b1 = b := read_restores b k msg b1 h1
  have e2 : b2 = b := read_restores b k msg2 b2 (readCancel_some_inv b k o msg2 b2 h2)
  subst e1
  exact ⟨rfl, e2, h1⟩

/-- Witness for C10: reading the written value `1` out of cell 0 returns the
state unchanged, both for `read` and for a successful `readCancel`. -/
theorem read_primitives_restore_cell_contents_w :
    writeAll (NewBroadcaster Nat) [1] = writeAll (NewBroadcaster Nat) [1]
    ∧ writeAll (NewBroadcaster Nat) [1] = writeAll (NewBroadcaster Nat) [1]
    ∧ read (writeAll (NewBroadcaster Nat) [1]) 0
        = some (⟨1, 1⟩, writeAll (NewBroadcaster Nat) [1]) :=
  read_primitives_restore_cell_contents Nat (writeAll (NewBroadcaster Nat) [1])
    0 neverFires ⟨1, 1⟩ ⟨1, 1⟩ (writeAll (NewBroadcaster Nat) [1])
    (writeAll (NewBroadcaster Nat) [1]) (by decide) (by decide)

/-- C1: no value dropped, duplicated, or reordered: from the Receiver
obtained by `Listen()`, once the values `ws` have been written the
receiver's `ws.length` successive `Read()` calls return exactly `ws`, in
order; and the `i`-th of those reads (counting from 0) already returns
`ws[i] = w` as soon as only the first `m > i` of the writes have happened,
so the reads may equally be interleaved with the writes. -/
theorem reads_return_writes_in_order (V : Type) (vs ws : List V)
    (i m : Nat) (w : V) (hw : ws[i]? = some w) (him : i < m)
    (hm : m ≤ ws.length) :
    readN (writeAll (writeAll (NewBroadcaster V) vs) ws)
        (Listen (writeAll (NewBroadcaster V) vs)) ws.length
      = some (ws, writeAll (writeAll (NewBroadcaster V) vs) ws,
          vs.length + ws.length)
    ∧ Read (writeAll (writeAll (NewBroadcaster V) vs) (ws.take m))
        (Listen (writeAll (NewBroadcaster V) vs) + i)
      = some (w, writeAll (writeAll (NewBroadcaster V) vs) (ws.take m),
          vs.length + i + 1) := by
  rw [writeAll_new, writeAll_stateOf, writeAll_stateOf, Listen_stateOf]
  constructor
  · have h := readN_stateOf (vs ++ ws) ws.length vs.length (by simp)
    rw [h, List.drop_left, List.take_length]
  · have hidx : (vs ++ ws.take m)[vs.length + i]? = some w := by
      rw [List.getElem?_append_right (by omega)]
      have e : vs.length + i - vs.length = i := by omega
      rw [e]
      simp [List.getElem?_take, him, hw]
    exact Read_stateOf (vs ++ ws.take m) (vs.length + i) w hidx

/-- Witness for C1: with pre-history `[1]`, writing `[2, 3]` and reading
twice yields `[2, 3]`; the 0-th read performed after only the first write
already yields `2`. -/
theorem reads_return_writes_in_order_w :
    readN (writeAll (writeAll (NewBroadcaster Nat) [1]) [2, 3])
        (Listen (writeAll (NewBroadcaster Nat) [1])) 2
      = some ([2, 3], writeAll (writeAll (NewBroadcaster Nat) [1]) [2, 3], 3)
    ∧ Read (writeAll (writeAll (NewBroadcaster Nat) [1]) ([2, 3].take 1))
        (Listen (writeAll (NewBroadcaster Nat) [1]) + 0)
      = some (2, writeAll (writeAll (NewBroadcaster Nat) [1]) ([2, 3].take 1),
          2) :=
  reads_return_writes_in_order Nat [1] [2, 3] 0 1 2 (by decide) (by decide)
    (by decide)

/-- C4: a `ReadCancel` that returns not-found leaves the Receiver exactly as
it was: same shared state, same cursor, and a subsequent plain `Read()`
still returns the pending value at that cursor. -/
theorem cancelled_read_leaves_pending_value_intact (V : Type) (vs : List V)
    (k : Nat) (v : V) (o : CancelOracle) (b1 : Bcast V) (k1 : Nat)
    (hv : vs[k]? = some v)
    (hc : ReadCancel (writeAll (NewBroadcaster V) vs) k o
      = some (none, b1, k1)) :
    b1 = writeAll (NewBroadcaster V) vs ∧ k1 = k
    ∧ Read b1 k1 = some (v, writeAll (NewBroadcaster V) vs, k + 1) := by
  rw [writeAll_new] at hc ⊢
  rcases o with ⟨pf, wr⟩
  by_cases hpw : pf = true ∨ wr = true
  · rw [ReadCancel_cancelled (stateOf vs) k ⟨pf, wr⟩ hpw] at hc
    simp only [Option.some.injEq, Prod.mk.injEq, true_and] at hc
    obtain ⟨hb, hk⟩ := hc
    subst hb
    subst hk
    exact ⟨rfl, rfl, Read_stateOf vs k v hv⟩
  · simp only [not_or, Bool.not_eq_true] at hpw
    obtain ⟨hpf, hwr⟩ := hpw
    subst hpf
    subst hwr
    rw [show (⟨false, false⟩ : CancelOracle) = neverFires from rfl,
      ReadCancel_never_stateOf vs k v hv] at hc
    simp at hc

/-- Witness for C4: a pre-fired cancellation on the written value `5` leaves
everything intact, and the next plain read returns `5`. -/
theorem cancelled_read_leaves_pending_value_intact_w :
    writeAll (NewBroadcaster Nat) [5] = writeAll (NewBroadcaster Nat) [5]
    ∧ 0 = 0
    ∧ Read (writeAll (NewBroadcaster Nat) [5]) 0
        = some (5, writeAll (NewBroadcaster Nat) [5], 1) :=
  cancelled_read_leaves_pending_value_intact Nat [5] 0 5 ⟨true, false⟩
    (writeAll (NewBroadcaster Nat) [5]) 0 (by decide) (by decide)

/-- C7: when `ReadVal` obtains a value that does not fill the target
(`fill.Fill` fails), it returns `false` and leaves the Receiver unchanged:
same shared state, same cursor, same target pointee; the unmatched value is
exactly what a subsequent `Read`, `Peek`, or `ReadVal` with any target on
this Receiver then obtains. -/
theorem readval_mismatch_keeps_cursor_and_value (V W W2 : Type)
    (vs : List V) (k : Nat) (v : V) (tf : V → Option W) (tgt : Option W)
    (tf2 : V → Option W2) (tgt2 : Option W2)
    (hv : vs[k]? = some v) (hmiss : tf v = none) :
    ReadVal (writeAll (NewBroadcaster V) vs) k tf tgt
      = some (false, writeAll (NewBroadcaster V) vs, k, tgt)
    ∧ Read (writeAll (NewBroadcaster V) vs) k
      = some (v, writeAll (NewBroadcaster V) vs, k + 1)
    ∧ Peek (writeAll (NewBroadcaster V) vs) k
      = some (v, writeAll (NewBroadcaster V) vs, k)
    ∧ ReadVal (writeAll (NewBroadcaster V) vs) k tf2 tgt2
      = some ((tf2 v).isSome, writeAll (NewBroadcaster V) vs,
          (match tf2 v with | some _ => k + 1 | none => k),
          (match tf2 v with | some w => some w | none => tgt2)) := by
  rw [writeAll_new]
  refine ⟨?_, Read_stateOf vs k v hv, Peek_stateOf vs k v hv, ?_⟩
  · simp only [ReadVal, read_stateOf vs k v hv, hmiss]
  · simp only [ReadVal, read_stateOf vs k v hv]
    cases htf : tf2 v with
    | none => simp
    | some w => simp [swap]

/-- Witness for C7: the written value `3` does not fill an always-failing
target, so the call reports `false` and the value stays readable. -/
theorem readval_mismatch_keeps_cursor_and_value_w :
    ReadVal (writeAll (NewBroadcaster Nat) [3]) 0 (fun _ => (none : Option Nat))
        (some 7)
      = some (false, writeAll (NewBroadcaster Nat) [3], 0, some 7)
    ∧ Read (writeAll (NewBroadcaster Nat) [3]) 0
      = some (3, writeAll (NewBroadcaster Nat) [3], 1)
    ∧ Peek (writeAll (NewBroadcaster Nat) [3]) 0
      = some (3, writeAll (NewBroadcaster Nat) [3], 0)
    ∧ ReadVal (writeAll (NewBroadcaster Nat) [3]) 0 (fun u => some (u + 1))
        (none : Option Nat)
      = some (true, writeAll (NewBroadcaster Nat) [3], 1, some 4) :=
  readval_mismatch_keeps_cursor_and_value Nat Nat Nat [3] 0 3
    (fun _ => none) (some 7) (fun u => some (u + 1)) none (by decide) rfl

/-- C8: if the unconsumed stream contains a value assignable to the target —
`vs[j] = v` with `tf v = some w`, every value from the cursor `k` up to `j`
not assignable — then `MustReadVal` terminates within `j - k + 1` loop
iterations: it consumes each of the `j - k` earlier non-matching values
exactly once, stores the first matching value `w`, and leaves the cursor
just past position `j`. -/
theorem mustreadval_returns_first_matching_value (V W : Type) (vs : List V)
    (k j : Nat) (v : V) (w : W) (tf : V → Option W) (tgt : Option W)
    (hj : vs[j]? = some v) (hw : tf v = some w) (hkj : k ≤ j)
    (hmiss : ∀ i (u : V), k ≤ i → i < j → vs[i]? = some u → tf u = none) :
    MustReadVal (j - k + 1) (writeAll (NewBroadcaster V) vs) k tf tgt
      = some (writeAll (NewBroadcaster V) vs, j + 1, some w) := by
  rw [writeAll_new]
  obtain ⟨n, rfl⟩ : ∃ n, j = k + n := ⟨j - k, by omega⟩
  clear hkj
  induction n generalizing k tgt with
  | zero =>
    have hjk : vs[k]? = some v := by simpa using hj
    have e : k + 0 - k + 1 = 1 := by omega
    rw [e, MustReadVal]
    simp only [ReadVal, read_stateOf vs k v hjk, hw, swap]
  | succ n ih =>
    have hlt : k + (n + 1) < vs.length := (List.getElem?_eq_some.mp hj).1
    cases hku : vs[k]? with
    | none =>
      have := List.getElem?_eq_none_iff.mp hku
      omega
    | some u =>
      have hnone : tf u = none := hmiss k u (Nat.le_refl k) (by omega) hku
      have e : k + (n + 1) - k + 1 = n + 2 := by omega
      rw [e, MustReadVal]
      simp only [ReadVal, read_stateOf vs k u hku, hnone,
        Read_stateOf vs k u hku]
      have hj2 : vs[(k + 1) + n]? = some v := by
        have e2 : (k + 1) + n = k + (n + 1) := by omega
        rw [e2]
        exact hj
      have hmiss2 : ∀ i (u2 : V), k + 1 ≤ i → i < (k + 1) + n →
          vs[i]? = some u2 → tf u2 = none := by
        intro i u2 hi1 hi2 hiu
        exact hmiss i u2 (by omega) (by omega) hiu
      have hrec := ih (k + 1) tgt hj2 hmiss2
      have e3 : (k + 1) + n - (k + 1) + 1 = n + 1 := by omega
      rw [e3] at hrec
      rw [hrec]
      have e4 : (k + 1) + n + 1 = k + (n + 1) + 1 := by omega
      rw [e4]

/-- Witness for C8: with stream `[10, 21]` and an odd-only target, the first
value is consumed and discarded and `MustReadVal` returns `21`, the cursor
ending past position 1, after 2 iterations. -/
theorem mustreadval_returns_first_matching_value_w :
    MustReadVal 2 (writeAll (NewBroadcaster Nat) [10, 21]) 0
        (fun u => if u % 2 = 1 then some u else none) none
      = some (writeAll (NewBroadcaster Nat) [10, 21], 2, some 21) :=
  mustreadval_returns_first_matching_value Nat Nat [10, 21] 0 1 21 21
    (fun u => if u % 2 = 1 then some u else none) none (by decide) (by decide)
    (by decide)
    (by
      intro i u hi1 hi2 hiu
      have : i = 0 := by omega
      subst this
      simp only [show ([10, 21] : List Nat)[0]? = some 10 from rfl,
        Option.some.injEq] at hiu
      subst hiu
      rfl)

/-- C9: whenever `ReadChan`'s goroutine exits, the trace of events on the
output channel ends with exactly one `close` (the deferred `close(vc)`),
after all emitted values, on every exit path; and oracles supplied for
iterations after the exit — in particular closing the stop channel after
the output channel is already closed — change nothing: neither the trace
nor the final receiver state. -/
theorem readchan_closes_once_then_stop_is_noop (V : Type) (b : Bcast V)
    (k : Nat) (os os2 : List CancelOracle) (tr : List (ChanEvent V))
    (b1 : Bcast V) (k1 : Nat)
    (h : ReadChan b k os = some (tr, b1, k1)) :
    tr.countP isClose = 1 ∧ tr.getLast? = some ChanEvent.close
    ∧ ReadChan b k (os ++ os2) = some (tr, b1, k1) := by
  induction os generalizing b k tr with
  | nil => rw [ReadChan] at h; exact absurd h (by simp)
  | cons o os ih =>
    rw [ReadChan] at h
    cases hrc : ReadCancel b k o with
    | none => rw [hrc] at h; simp at h
    | some p =>
      obtain ⟨mv, b', k'⟩ := p
      rw [hrc] at h
      cases mv with
      | none =>
        simp only [Option.some.injEq, Prod.mk.injEq] at h
        obtain ⟨htr, hb, hk⟩ := h
        subst htr
        subst hb
        subst hk
        refine ⟨by simp [isClose], by simp, ?_⟩
        rw [List.cons_append, ReadChan, hrc]
      | some v =>
        simp only [] at h
        cases hrec : ReadChan b' k' os with
        | none => rw [hrec] at h; simp at h
        | some q =>
          obtain ⟨tr', b2, k2⟩ := q
          rw [hrec] at h
          simp only [Option.some.injEq, Prod.mk.injEq] at h
          obtain ⟨htr, hb, hk⟩ := h
          subst htr
          subst hb
          subst hk
          obtain ⟨hcount, hlast, happ⟩ := ih b' k' tr' hrec
          refine ⟨?_, getLast_cons_of_getLast _ _ _ hlast, ?_⟩
          · rw [List.countP_cons]
            simp [isClose, hcount]
          · rw [List.cons_append, ReadChan, hrc]
            simp only [happ]

/-- Witness for C9: a run that emits the written value `1` and is then
cancelled produces the trace `[emit 1, close]`; appending further oracles
(closing the stop channel again) changes nothing. -/
theorem readchan_closes_once_then_stop_is_noop_w :
    ([ChanEvent.emit 1, ChanEvent.close] : List (ChanEvent Nat)).countP isClose
        = 1
    ∧ ([ChanEvent.emit 1, ChanEvent.close] : List (ChanEvent Nat)).getLast?
        = some ChanEvent.close
    ∧ ReadChan (writeAll (NewBroadcaster Nat) [1]) 0
        ([⟨false, false⟩, ⟨true, false⟩] ++ [⟨true, true⟩])
      = some ([ChanEvent.emit 1, ChanEvent.close],
          writeAll (NewBroadcaster Nat) [1], 1) :=
  readchan_closes_once_then_stop_is_noop Nat (writeAll (NewBroadcaster Nat) [1])
    0 [⟨false, false⟩, ⟨true, false⟩] [⟨true, true⟩]
    [ChanEvent.emit 1, ChanEvent.close] (writeAll (NewBroadcaster Nat) [1]) 1
    (by decide)

end Gibb
